import Mathlib

/-!
# Verification of the restore-archived-project pipeline

Shallow embedding of `src/main.py` and `src/globals.py` of the
`restore-archived-project` repository, together with proofs about the
embedded functions.  Byte contents are modelled as `List Nat`, file
system directories as association lists from file name to content, and
network interactions as explicit response scripts / oracles.
-/

namespace Fetcher

/-! ## Retrying Fetcher — `download_file_from_dropbox` (src/main.py lines 79-149)

The download loop is modelled as a transition system driven by a script of
attempts.  Each attempt delivers a list of data chunks (possibly empty)
and then ends in success, a `requests.exceptions.RequestException`
(transient network/protocol failure, including the bad-status/content-type
branch that raises `RequestException` itself), or any other exception
(generic failure).  The mutable loop state is the pair
(`retry_attemp`, `timeout`) from lines 91-92. -/

/-- How a single pass through the `while True` body ends. -/
inductive AttemptEnd
  | success
  | transient
  | generic
deriving DecidableEq, Repr

/-- One pass through the loop body: the chunks delivered by
`response.iter_content` before the pass ends, and how it ends.  A chunk is
a byte string; `if chunk:` in the source is falsy exactly for an empty
chunk. -/
structure Attempt where
  chunks : List (List Nat)
  ending : AttemptEnd
deriving DecidableEq, Repr

/-- The mutable state of the download loop (lines 91-92). -/
structure FetchState where
  retry_attemp : Nat
  timeout : Nat
deriving DecidableEq, Repr

/-- `retry_attemp = 0`, `timeout = 10` (lines 91-92). -/
def initFetchState : FetchState := ⟨0, 10⟩

/-- Line 123-127: every non-empty chunk resets `retry_attemp` to 0 and is
written to the file; empty chunks change nothing.  Only the counter lives
in the state, so the fold records just the resets. -/
def procChunks (s : FetchState) (chunks : List (List Nat)) : FetchState :=
  chunks.foldl (fun st ch => if ch ≠ [] then { st with retry_attemp := 0 } else st) s

/-- `g.troubleshooting_link` from src/globals.py lines 40-42. -/
def troubleshooting_link : String :=
  "https://ecosystem.supervisely.com/apps/restore-archived-project?id=283#troubleshooting"

/-- The message installed by `raise_exception_with_troubleshooting_link`
(src/main.py lines 46-56). -/
def troubleshootingMsg : String :=
  "Something went wrong, read the <a href=" ++ troubleshooting_link ++
    ">Troubleshooting Instructions</a>. If this does not help, please contact us."

/-- `INACTIVITY_TITLE` (line 59), the message of the `InactivityError`
raised by `raise_exception_inactivity` (lines 63-76). -/
def inactivityTitle : String :=
  "The access to your project backup has expired due to inactivity."

/-- How a run of the download loop ends. -/
inductive FetchResult
  | done
  | inactivity (msg : String)
  | troubleshooting (msg : String)
  | pending (s : FetchState)
deriving DecidableEq, Repr

/-- Observable trace of a run: the `timeout` value passed to
`requests.get` on each attempt, the durations of the `time.sleep` calls,
and the final result (`pending s` when the script ran out while the loop
would continue). -/
structure FetchTrace where
  timeouts : List Nat
  sleeps : List Nat
  result : FetchResult
deriving DecidableEq, Repr

/-- The download loop of `download_file_from_dropbox` (lines 96-149),
driven by a finite script of attempts.

* transient branch (lines 128-140): increment `retry_attemp`; bump
  `timeout` by 10 while it is below 90; raise inactivity when the counter
  reaches 9; otherwise sleep 5s for counters 1-4 and 10s for counters 5-8;
* generic branch (lines 141-145): increment `retry_attemp`; raise the
  troubleshooting error when the counter reaches 3; no sleep, no timeout
  change;
* `else` branch (lines 147-149): successful pass breaks the loop. -/
def download_file_from_dropbox : FetchState → List Attempt → FetchTrace
  | s, [] => ⟨[], [], .pending s⟩
  | s, a :: rest =>
    let s1 := procChunks s a.chunks
    match a.ending with
    | .success => ⟨[s.timeout], [], .done⟩
    | .transient =>
      let r := s1.retry_attemp + 1
      let t := if s1.timeout < 90 then s1.timeout + 10 else s1.timeout
      if r = 9 then ⟨[s.timeout], [], .inactivity inactivityTitle⟩
      else
        let slp := if r ≤ 4 then 5 else 10
        let tr := download_file_from_dropbox ⟨r, t⟩ rest
        ⟨s.timeout :: tr.timeouts, slp :: tr.sleeps, tr.result⟩
    | .generic =>
      let r := s1.retry_attemp + 1
      if r = 3 then ⟨[s.timeout], [], .troubleshooting troubleshootingMsg⟩
      else
        let tr := download_file_from_dropbox ⟨r, s1.timeout⟩ rest
        ⟨s.timeout :: tr.timeouts, tr.sleeps, tr.result⟩

/-- A transient-failure attempt that delivered no data. -/
def transientAttempt : Attempt := ⟨[], .transient⟩

/-- A generic-failure attempt that delivered no data. -/
def genericAttempt : Attempt := ⟨[], .generic⟩

/-- Did the retry budget terminate the download (inactivity or the
troubleshooting escalation)? -/
def terminatedByRetryBudget : FetchResult → Bool
  | .inactivity _ => true
  | .troubleshooting _ => true
  | _ => false

/-- `main` lines 661-664: `download_backup` is wrapped in
`try/except InactivityError: return`, so the inactivity condition stops the
run cleanly; any other raised error propagates as a crash. -/
inductive RunOutcome
  | stoppedCleanly
  | proceeded
  | crashed (msg : String)
deriving DecidableEq, Repr

/-- The `try: download_backup(...) except InactivityError: return` guard of
`main` (src/main.py lines 661-664). -/
def mainDownloadGuard : FetchResult → RunOutcome
  | .inactivity _ => .stoppedCleanly
  | .done => .proceeded
  | .pending _ => .proceeded
  | .troubleshooting msg => .crashed msg

/-- `procChunks` never changes the `timeout` field. -/
theorem procChunks_timeout (s : FetchState) (chunks : List (List Nat)) :
    (procChunks s chunks).timeout = s.timeout := by
  induction chunks generalizing s with
  | nil => rfl
  | cons c cs ih =>
    show (procChunks (if c ≠ [] then { s with retry_attemp := 0 } else s) cs).timeout
      = s.timeout
    by_cases h : c = [] <;> simp [h, ih]

/-- Closed form of the failure counter after a pass over the chunks. -/
theorem procChunks_retry (s : FetchState) (chunks : List (List Nat)) :
    (procChunks s chunks).retry_attemp =
      if chunks.any (fun c => !c.isEmpty) then 0 else s.retry_attemp := by
  induction chunks generalizing s with
  | nil => rfl
  | cons c cs ih =>
    show (procChunks (if c ≠ [] then { s with retry_attemp := 0 } else s) cs).retry_attemp = _
    by_cases h : c = [] <;> simp [h, ih]

/-- If any delivered chunk is non-empty, the failure counter ends at 0. -/
theorem procChunks_retry_of_progress (s : FetchState) (chunks : List (List Nat))
    (h : ∃ c ∈ chunks, c ≠ []) : (procChunks s chunks).retry_attemp = 0 := by
  rw [procChunks_retry]
  have hany : chunks.any (fun c => !c.isEmpty) = true := by
    rcases h with ⟨c, hc, hne⟩
    refine List.any_eq_true.mpr ⟨c, hc, ?_⟩
    simpa using hne
  simp [hany]

/-- The timeout bump `if timeout < 90: timeout += 10` keeps the timeout a
multiple of 10 bounded by 90, from any state satisfying that invariant. -/
theorem timeouts_le_90 (script : List Attempt) :
    ∀ s : FetchState, s.timeout ≤ 90 → s.timeout % 10 = 0 →
      ∀ t ∈ (download_file_from_dropbox s script).timeouts, t ≤ 90 := by
  induction script with
  | nil => intro s h _ t ht; simp [download_file_from_dropbox] at ht
  | cons a rest ih =>
    intro s h hmod t ht
    cases hend : a.ending with
    | success =>
      simp only [download_file_from_dropbox, hend] at ht
      simp only [List.mem_singleton] at ht
      omega
    | transient =>
      simp only [download_file_from_dropbox, hend] at ht
      split at ht
      · simp only [List.mem_singleton] at ht; omega
      · simp only [List.mem_cons] at ht
        rcases ht with rfl | ht
        · omega
        · refine ih _ ?_ ?_ t ht <;>
            simp only [procChunks_timeout] <;> split <;> omega
    | generic =>
      simp only [download_file_from_dropbox, hend] at ht
      split at ht
      · simp only [List.mem_singleton] at ht; omega
      · simp only [List.mem_cons] at ht
        rcases ht with rfl | ht
        · omega
        · exact ih _ (by simp only [procChunks_timeout]; omega)
            (by simp only [procChunks_timeout]; omega) t ht

/-- C2: over consecutive transient failures from the initial state, the
download is retried up to 8 times, the per-attempt request timeout starts
at 10s growing by 10s per retry and never exceeds 90s, the sleeps are 5s
after retries 1-4 and 10s after retries 5-8, the 9th consecutive transient
failure raises the distinct inactivity (expired-source) condition, and the
caller's guard turns that condition into a clean stop rather than a
crash. -/
theorem fetcher_transient_retry_policy :
    (∀ n, n < 9 →
      download_file_from_dropbox initFetchState (List.replicate n transientAttempt) =
        ⟨(List.range n).map (fun k => 10 + 10 * k),
         (List.range n).map (fun k => if k + 1 ≤ 4 then 5 else 10),
         .pending ⟨n, 10 + 10 * n⟩⟩)
    ∧ download_file_from_dropbox initFetchState (List.replicate 9 transientAttempt) =
        ⟨[10, 20, 30, 40, 50, 60, 70, 80, 90],
         [5, 5, 5, 5, 10, 10, 10, 10],
         .inactivity inactivityTitle⟩
    ∧ (∀ script, ∀ t ∈ (download_file_from_dropbox initFetchState script).timeouts, t ≤ 90)
    ∧ mainDownloadGuard (.inactivity inactivityTitle) = .stoppedCleanly := by
  refine ⟨by decide, by decide, ?_, rfl⟩
  intro script t ht
  exact timeouts_le_90 script initFetchState (by decide) (by decide) t ht

/-- Witness for `fetcher_transient_retry_policy` at 8 consecutive
transient failures and at a concrete one-attempt script. -/
theorem fetcher_transient_retry_policy_witness :
    download_file_from_dropbox initFetchState (List.replicate 8 transientAttempt) =
      ⟨[10, 20, 30, 40, 50, 60, 70, 80],
       [5, 5, 5, 5, 10, 10, 10, 10],
       .pending ⟨8, 90⟩⟩ ∧ (10 : Nat) ≤ 90 := by
  have h := fetcher_transient_retry_policy
  constructor
  · have h1 := h.1 8 (by decide)
    rw [h1]; rfl
  · exact h.2.2.1 [transientAttempt] 10 (by decide)

/-- C5: a non-transient unexpected error is retried at most twice; from
any point of the download at which the failure counter is reset (whatever
the current timeout), the third consecutive generic failure escalates as
the fatal error carrying the troubleshooting-link guidance. -/
theorem fetcher_generic_retry_policy :
    (∀ t : Nat,
      download_file_from_dropbox ⟨0, t⟩ (List.replicate 2 genericAttempt) =
        ⟨[t, t], [], .pending ⟨2, t⟩⟩)
    ∧ (∀ t : Nat,
      download_file_from_dropbox ⟨0, t⟩ (List.replicate 3 genericAttempt) =
        ⟨[t, t, t], [], .troubleshooting troubleshootingMsg⟩)
    ∧ troubleshootingMsg =
        "Something went wrong, read the <a href=" ++ troubleshooting_link ++
          ">Troubleshooting Instructions</a>. If this does not help, please contact us." :=
  ⟨fun _ => rfl, fun _ => rfl, rfl⟩

/-- C10: a non-empty chunk resets the failure counter to 0, and a download
whose every attempt receives at least one non-empty chunk is never
terminated by either retry budget, from any state. -/
theorem fetcher_progress_resets_budget :
    (∀ (s : FetchState) (chunks : List (List Nat)),
      (∃ c ∈ chunks, c ≠ []) → (procChunks s chunks).retry_attemp = 0)
    ∧ (∀ (script : List Attempt) (s : FetchState),
      (∀ a ∈ script, ∃ c ∈ a.chunks, c ≠ []) →
      terminatedByRetryBudget (download_file_from_dropbox s script).result = false) := by
  refine ⟨fun s chunks h => procChunks_retry_of_progress s chunks h, ?_⟩
  intro script
  induction script with
  | nil => intro s _; rfl
  | cons a rest ih =>
    intro s hall
    have ha : (procChunks s a.chunks).retry_attemp = 0 :=
      procChunks_retry_of_progress s a.chunks (hall a (by simp))
    have hrest : ∀ b ∈ rest, ∃ c ∈ b.chunks, c ≠ [] :=
      fun b hb => hall b (by simp [hb])
    cases hend : a.ending with
    | success => simp [download_file_from_dropbox, hend, terminatedByRetryBudget]
    | transient =>
      have h9 : ¬ ((procChunks s a.chunks).retry_attemp + 1 = 9) := by omega
      simp only [download_file_from_dropbox, hend, if_neg h9]
      exact ih _ hrest
    | generic =>
      have h3 : ¬ ((procChunks s a.chunks).retry_attemp + 1 = 3) := by omega
      simp only [download_file_from_dropbox, hend, if_neg h3]
      exact ih _ hrest

/-- Witness for `fetcher_progress_resets_budget`: twelve attempts, each
delivering a non-empty chunk before failing, never hit a retry budget. -/
theorem fetcher_progress_resets_budget_witness :
    (procChunks initFetchState [[7]]).retry_attemp = 0 ∧
    terminatedByRetryBudget
      (download_file_from_dropbox initFetchState
        (List.replicate 6 (⟨[[1]], .transient⟩ : Attempt) ++
         List.replicate 6 (⟨[[2]], .generic⟩ : Attempt))).result = false := by
  have h := fetcher_progress_resets_budget
  exact ⟨h.1 initFetchState [[7]] (by decide), h.2 _ initFetchState (by decide)⟩

end Fetcher

namespace DiskGuard

/-! ## Disk-Space Guard — `check_disk_space` (src/main.py lines 269-287)

The source computes `source_size` as the sum of `os.path.getsize` over
`list_dir_recursively(source_path)` when the source is a directory, or as
the single file's size otherwise, and returns `free_space > source_size`
where `free_space` is `shutil.disk_usage(dest_dir).free`.  File names play
no role in the comparison, so a file-system node keeps only sizes; the
free bytes reported by the OS for the destination are a parameter. -/

/-- A file-system node: a file with its byte size, or a directory with its
children. -/
inductive FSNode
  | file (size : Nat)
  | dir (children : List FSNode)

mutual

/-- Sizes of all files below a node, depth-first — the
`os.path.getsize(f) for f in list_dir_recursively(source_path, True, True)`
enumeration. -/
def recursiveFileSizes : FSNode → List Nat
  | .file n => [n]
  | .dir cs => recursiveFileSizesList cs

/-- `recursiveFileSizes` over a directory listing. -/
def recursiveFileSizesList : List FSNode → List Nat
  | [] => []
  | c :: cs => recursiveFileSizes c ++ recursiveFileSizesList cs

end

/-- `check_disk_space` (lines 269-287): `source_size` is the recursive sum
for a directory and the file size otherwise; the result is
`free_space > source_size`. -/
def check_disk_space (source : FSNode) (free_space : Nat) : Bool :=
  let source_size :=
    match source with
    | .dir cs => (recursiveFileSizesList cs).sum
    | .file n => n
  decide (source_size < free_space)

mutual

/-- Specification-side required bytes: total size of the source, computed
by direct structural recursion (recursive directory size for a directory,
file size otherwise). -/
def requiredBytes : FSNode → Nat
  | .file n => n
  | .dir cs => requiredBytesList cs

/-- `requiredBytes` over a directory listing. -/
def requiredBytesList : List FSNode → Nat
  | [] => 0
  | c :: cs => requiredBytes c + requiredBytesList cs

end

mutual

theorem recursiveFileSizes_sum : ∀ n : FSNode, (recursiveFileSizes n).sum = requiredBytes n
  | .file n => by simp [recursiveFileSizes, requiredBytes]
  | .dir cs => by
      simp [recursiveFileSizes, requiredBytes, recursiveFileSizesList_sum cs]

theorem recursiveFileSizesList_sum :
    ∀ cs : List FSNode, (recursiveFileSizesList cs).sum = requiredBytesList cs
  | [] => rfl
  | c :: cs => by
      simp [recursiveFileSizesList, requiredBytesList, recursiveFileSizes_sum c,
        recursiveFileSizesList_sum cs]

end

/-- C6: the guard returns ok exactly when the free bytes at the
destination strictly exceed the total size of the source (recursive
directory size for a directory, file size otherwise); equal free and
required bytes fail the check. -/
theorem disk_guard_boundary :
    (∀ (source : FSNode) (free : Nat),
      check_disk_space source free = decide (requiredBytes source < free))
    ∧ (∀ source : FSNode, check_disk_space source (requiredBytes source) = false) := by
  have key : ∀ (source : FSNode) (free : Nat),
      check_disk_space source free = decide (requiredBytes source < free) := by
    intro source free
    cases source with
    | file n => rfl
    | dir cs =>
      simp [check_disk_space, requiredBytes, recursiveFileSizesList_sum cs]
  exact ⟨key, fun source => by simp [key]⟩

end DiskGuard

namespace AnnRepair

/-! ## Annotation Repair — `handle_broken_ann`, `create_empty_ann`, and the
per-item repair loop of `check_shapes_in_images_project`
(src/main.py lines 501-601)

An annotation file's content is modelled after parsing: either it is not
valid JSON at all, or it is a JSON object from which the source reads the
`size`, `description`, `objects` and `tags` fields.  Whether
`sly.Label.from_json` / `sly.Tag.from_json` succeeds for an entry against
the project meta is an external fact recorded as a flag on the entry. -/

/-- One entry of the `objects` list: its `classTitle` field (possibly
missing) and whether `sly.Label.from_json(obj, meta)` succeeds. -/
structure ObjJson where
  classTitle : Option String
  parsable : Bool
deriving DecidableEq, Repr

/-- One entry of the `tags` list: whether
`sly.Tag.from_json(tag, meta.tag_metas)` succeeds. -/
structure TagJson where
  parsable : Bool
deriving DecidableEq, Repr

/-- Content of an annotation file. -/
inductive AnnContent
  | notJson
  | json (size : Option (Nat × Nat)) (descr : String)
      (objs : List ObjJson) (tags : List TagJson)
deriving DecidableEq, Repr

/-- A structurally valid `sly.Annotation`: image size is mandatory. -/
structure Annotation where
  imgSize : Nat × Nat
  labels : List ObjJson
  imgTags : List TagJson
  descr : String
deriving DecidableEq, Repr

/-- Does `obj_class_name in keep_classes` hold for an object entry?
(`obj.get("classTitle")` may be `None`, which is never in the list.) -/
def classKept (keep_classes : List String) (o : ObjJson) : Bool :=
  match o.classTitle with
  | some c => keep_classes.contains c
  | none => false

/-- `handle_broken_ann` (src/main.py lines 501-547): raise on a file that
is not valid JSON (the `load_json_file` call fails); raise
`RuntimeError("Image size is not found in annotation: ...")` when the
`size` field is absent (lines 513-515); otherwise keep the objects whose
class is kept and whose label parses, keep the tags that parse, and build
the annotation from the survivors. -/
def handle_broken_ann (ann_name : String) (content : AnnContent)
    (keep_classes : List String) : Except String Annotation :=
  match content with
  | .notJson => .error ("Failed to load json file: " ++ ann_name)
  | .json size descr objs tags =>
    match size with
    | none => .error ("Image size is not found in annotation: " ++ ann_name)
    | some sz =>
      let keep_labels := objs.filter (fun o => classKept keep_classes o && o.parsable)
      let kepp_tags := tags.filter (fun t => t.parsable)
      .ok ⟨sz, keep_labels, kepp_tags, descr⟩

/-- Modelled from the spec: the tier-1 standard loader
`sly.Annotation.load_json_file(ann_path, meta)` followed by
`filter_labels_by_classes(keep_classes)` (src/main.py lines 588-589).  The
loader itself is external library code: per the spec it succeeds only on a
fully valid record (valid JSON, mandatory image size, every object and tag
constructible against the meta), and the filter then keeps the labels
whose class is in `keep_classes`. -/
def load_and_filter (ann_name : String) (content : AnnContent)
    (keep_classes : List String) : Except String Annotation :=
  match content with
  | .notJson => .error ("Failed to load json file: " ++ ann_name)
  | .json size descr objs tags =>
    match size with
    | none => .error ("Image size is not found in annotation: " ++ ann_name)
    | some sz =>
      if objs.all (fun o => o.parsable && o.classTitle.isSome) &&
          tags.all (fun t => t.parsable) then
        .ok ⟨sz, objs.filter (fun o => classKept keep_classes o), tags, descr⟩
      else
        .error ("Annotation is invalid: " ++ ann_name)

/-- `create_empty_ann` (src/main.py lines 550-558): an empty annotation
sized from the actual image file
(`sly.Annotation.from_img_path(item_path)`). -/
def create_empty_ann (img_dims : Nat × Nat) : Annotation :=
  ⟨img_dims, [], [], ""⟩

/-- The per-item repair cascade of `check_shapes_in_images_project`
(src/main.py lines 587-601): try the standard load, on any failure try
`handle_broken_ann`, and on any failure of that log the error and fall
back to `create_empty_ann` on the item's image.  The result is always
written back. -/
def repairAnnotation (ann_name : String) (content : AnnContent)
    (keep_classes : List String) (img_dims : Nat × Nat) : Annotation :=
  match load_and_filter ann_name content keep_classes with
  | .ok ann => ann
  | .error _ =>
    match handle_broken_ann ann_name content keep_classes with
    | .ok ann => ann
    | .error _ => create_empty_ann img_dims

/-- C1 counterexample: for a valid-JSON annotation without the size field,
tier 2 (`handle_broken_ann`) does raise the missing-image-size error, but
the repair loop catches it and falls back to the placeholder tier, so a
structurally valid annotation record (the empty annotation sized from the
image) IS produced — the claim that the error surfaces with no fallback is
false on the code. -/
theorem missing_size_counterexample :
    handle_broken_ann "img1.png.json" (.json none "" [] []) [] =
      .error "Image size is not found in annotation: img1.png.json" ∧
    repairAnnotation "img1.png.json" (.json none "" [] []) [] (800, 1067) =
      create_empty_ann (800, 1067) := by
  exact ⟨rfl, rfl⟩

/-- C1 amended: for every annotation file whose content is valid JSON but
lacks the size field, tier 2 raises the missing-image-size error, and the
repair loop then falls back to the placeholder tier, producing the empty
annotation sized from the item's image — so the item still ends with a
structurally valid annotation record. -/
theorem missing_size_falls_back_to_placeholder
    (ann_name : String) (descr : String) (objs : List ObjJson)
    (tags : List TagJson) (keep_classes : List String) (img_dims : Nat × Nat) :
    handle_broken_ann ann_name (.json none descr objs tags) keep_classes =
      .error ("Image size is not found in annotation: " ++ ann_name) ∧
    repairAnnotation ann_name (.json none descr objs tags) keep_classes img_dims =
      create_empty_ann img_dims := by
  exact ⟨rfl, rfl⟩

end AnnRepair

namespace Reconciler

/-! ## Content Reconciler — `download_missed_hashes` (src/main.py lines 408-449)

The loop repeatedly calls
`g.api.image.download_paths_by_hashes(image_hashes, image_destination_pathes)`
until it succeeds, an exception escalates, or `errors > 4` breaks with a
warning.  A remote call's behaviour is one of: success; a
`requests.HTTPError` whose body either fails to decode/parse (the
`e.response.content.decode` / `json.loads` calls then raise and propagate)
or parses to a JSON object with a `details.message` and `details.hashes`;
or any other exception (not caught by the `except requests.HTTPError`
clause, so it propagates at once).  The sequence of remote behaviours is an
oracle indexed by the call number. -/

/-- Body of an HTTP error response as the except-clause consumes it. -/
inductive HttpBody
  | unparseable
  | parsed (message : Option String) (hashes : List String)
deriving DecidableEq, Repr

/-- Behaviour of one remote batch-fetch call. -/
inductive RemoteResp
  | success
  | httpError (body : HttpBody)
  | otherError
deriving DecidableEq, Repr

/-- Which raised exception escalated out of the loop. -/
inductive Escalation
  | unexpected
  | badBody
deriving DecidableEq, Repr

/-- How `download_missed_hashes` ends for a dataset: all remaining entries
downloaded; retries exhausted with a logged warning, the listed entries
left absent; or an exception escalating to the caller. -/
inductive ReconOutcome
  | downloaded (hashes pathes : List String)
  | skipped (hashes pathes : List String)
  | escalated (e : Escalation) (hashes pathes : List String)
deriving DecidableEq, Repr

/-- The index comprehension of lines 444-446:
`[index for index, d_hash in enumerate(image_hashes) if d_hash in hashes]`,
with the running index made explicit. -/
def matchIdxsAux (hashes : List String) : Nat → List String → List Nat
  | _, [] => []
  | i, h :: t =>
    if hashes.contains h then i :: matchIdxsAux hashes (i + 1) t
    else matchIdxsAux hashes (i + 1) t

/-- Indices of the batch entries whose hash the error response named. -/
def matchIdxs (image_hashes hashes : List String) : List Nat :=
  matchIdxsAux hashes 0 image_hashes

/-- Pop the given indices one by one (`list.pop(index)` = remove at
index). -/
def popMany (l : List String) (idxs : List Nat) : List String :=
  idxs.foldl (fun acc i => acc.eraseIdx i) l

/-- Lines 443-449: when the reported hash list is non-empty, pop the
matching indices from both lists in `sorted(idxs_to_remove, reverse=True)`
order; `matchIdxs` is ascending, so the descending sort is its reverse. -/
def narrowBatch (image_hashes image_destination_pathes hashes : List String) :
    List String × List String :=
  if hashes.length ≠ 0 then
    let idxs_to_remove := matchIdxs image_hashes hashes
    (popMany image_hashes idxs_to_remove.reverse,
     popMany image_destination_pathes idxs_to_remove.reverse)
  else (image_hashes, image_destination_pathes)

/-- The `while True` loop of `download_missed_hashes` (lines 426-449),
returning the outcome together with the number of remote calls issued.
`errors` counts the failed calls; the loop head breaks with a warning once
`errors > 4`.  An `HTTPError` whose body parses to the structured
`"Hashes not found"` message narrows the batch and retries; an `HTTPError`
with any other parsed message retries with the batch unchanged; an
`HTTPError` whose body cannot be decoded, or any non-`HTTPError`
exception, escalates immediately. -/
def download_missed_hashes (oracle : Nat → RemoteResp) (k errors : Nat)
    (image_hashes image_destination_pathes : List String) :
    ReconOutcome × Nat :=
  if _h : errors > 4 then (.skipped image_hashes image_destination_pathes, 0)
  else
    match oracle k with
    | .success => (.downloaded image_hashes image_destination_pathes, 1)
    | .otherError => (.escalated .unexpected image_hashes image_destination_pathes, 1)
    | .httpError .unparseable => (.escalated .badBody image_hashes image_destination_pathes, 1)
    | .httpError (.parsed message hashes) =>
      if message = some "Hashes not found" then
        let narrowed := narrowBatch image_hashes image_destination_pathes hashes
        let rest := download_missed_hashes oracle (k + 1) (errors + 1) narrowed.1 narrowed.2
        (rest.1, rest.2 + 1)
      else
        let rest := download_missed_hashes oracle (k + 1) (errors + 1)
          image_hashes image_destination_pathes
        (rest.1, rest.2 + 1)
  termination_by 5 - errors
  decreasing_by all_goals omega

theorem matchIdxsAux_shift (rep : List String) (l : List String) :
    ∀ i : Nat, matchIdxsAux rep (i + 1) l = (matchIdxsAux rep i l).map (· + 1) := by
  induction l with
  | nil => intro i; rfl
  | cons h t ih =>
    intro i
    by_cases hc : h ∈ rep <;>
      simp [matchIdxsAux, hc, ih (i + 1)]

theorem matchIdxs_cons (rep : List String) (h : String) (t : List String) :
    matchIdxs (h :: t) rep =
      if h ∈ rep then 0 :: (matchIdxs t rep).map (· + 1)
      else (matchIdxs t rep).map (· + 1) := by
  by_cases hc : h ∈ rep <;>
    simp [matchIdxs, matchIdxsAux, hc, matchIdxsAux_shift rep t 0]

theorem popMany_append (l : List String) (A B : List Nat) :
    popMany l (A ++ B) = popMany (popMany l A) B := by
  simp [popMany, List.foldl_append]

theorem popMany_map_succ (x : String) (l : List String) :
    ∀ J : List Nat, popMany (x :: l) (J.map (· + 1)) = x :: popMany l J := by
  intro J
  induction J generalizing l with
  | nil => rfl
  | cons j J ih =>
    show popMany ((x :: l).eraseIdx (j + 1)) (J.map (· + 1)) = _
    simp only [List.eraseIdx_cons_succ]
    exact ih (l.eraseIdx j)

/-- The reverse-ordered pops of the matching indices from a pair of
positionally paired lists remove exactly the entries whose hash is in the
reported list, from both lists, keeping the pairing. -/
theorem popMany_matchIdxs (rep : List String) :
    ∀ hs ps : List String, hs.length = ps.length →
      popMany hs (matchIdxs hs rep).reverse = hs.filter (fun h => !rep.contains h) ∧
      popMany ps (matchIdxs hs rep).reverse =
        ((hs.zip ps).filter (fun pr => !rep.contains pr.1)).map Prod.snd := by
  intro hs
  induction hs with
  | nil =>
    intro ps hlen
    have : ps = [] := List.length_eq_zero.mp hlen.symm
    subst this
    exact ⟨rfl, rfl⟩
  | cons h t ih =>
    intro ps hlen
    cases ps with
    | nil => simp at hlen
    | cons p pt =>
      have hlen' : t.length = pt.length := by simpa using hlen
      have iht := ih pt hlen'
      rw [matchIdxs_cons]
      by_cases hc : h ∈ rep
      · have hrev : (0 :: (matchIdxs t rep).map (· + 1)).reverse =
            ((matchIdxs t rep).reverse.map (· + 1)) ++ [0] := by
          simp [List.map_reverse]
        constructor
        · rw [if_pos hc, hrev, popMany_append, popMany_map_succ]
          show (h :: popMany t (matchIdxs t rep).reverse).eraseIdx 0 = _
          simp [List.eraseIdx_cons_zero, iht.1, hc]
        · rw [if_pos hc, hrev, popMany_append, popMany_map_succ]
          show (p :: popMany pt (matchIdxs t rep).reverse).eraseIdx 0 = _
          simp [List.eraseIdx_cons_zero, iht.2, hc]
      · have hrev : ((matchIdxs t rep).map (· + 1)).reverse =
            ((matchIdxs t rep).reverse.map (· + 1)) := by
          simp [List.map_reverse]
        constructor
        · rw [if_neg hc, hrev, popMany_map_succ]
          simp [iht.1, hc]
        · rw [if_neg hc, hrev, popMany_map_succ]
          simp [iht.2, hc]

/-- `narrowBatch` removes exactly the reported entries from both lists. -/
theorem narrowBatch_eq_filter (hs ps rep : List String) (hlen : hs.length = ps.length) :
    narrowBatch hs ps rep =
      (hs.filter (fun h => !rep.contains h),
       ((hs.zip ps).filter (fun pr => !rep.contains pr.1)).map Prod.snd) := by
  have hkey := popMany_matchIdxs rep hs ps hlen
  by_cases hrep : rep.length ≠ 0
  · simp only [narrowBatch, if_pos hrep]
    exact Prod.ext hkey.1 hkey.2
  · have : rep = [] := by
      simp only [ne_eq, not_not] at hrep
      exact List.length_eq_zero.mp hrep
    subst this
    have h2 : (hs.zip ps).map Prod.snd = ps := List.map_snd_zip hs ps (le_of_eq hlen.symm)
    simp [narrowBatch, h2]

theorem dmh_skip (oracle : Nat → RemoteResp) (k errors : Nat) (hs ps : List String)
    (h4 : errors > 4) :
    download_missed_hashes oracle k errors hs ps = (.skipped hs ps, 0) := by
  rw [download_missed_hashes.eq_def, dif_pos h4]

theorem dmh_success (oracle : Nat → RemoteResp) (k errors : Nat) (hs ps : List String)
    (h4 : errors ≤ 4) (hk : oracle k = .success) :
    download_missed_hashes oracle k errors hs ps = (.downloaded hs ps, 1) := by
  rw [download_missed_hashes.eq_def, dif_neg (by omega), hk]

theorem dmh_other (oracle : Nat → RemoteResp) (k errors : Nat) (hs ps : List String)
    (h4 : errors ≤ 4) (hk : oracle k = .otherError) :
    download_missed_hashes oracle k errors hs ps = (.escalated .unexpected hs ps, 1) := by
  rw [download_missed_hashes.eq_def, dif_neg (by omega), hk]

theorem dmh_badBody (oracle : Nat → RemoteResp) (k errors : Nat) (hs ps : List String)
    (h4 : errors ≤ 4) (hk : oracle k = .httpError .unparseable) :
    download_missed_hashes oracle k errors hs ps = (.escalated .badBody hs ps, 1) := by
  rw [download_missed_hashes.eq_def, dif_neg (by omega), hk]

theorem dmh_narrow (oracle : Nat → RemoteResp) (k errors : Nat) (hs ps rep : List String)
    (h4 : errors ≤ 4)
    (hk : oracle k = .httpError (.parsed (some "Hashes not found") rep)) :
    download_missed_hashes oracle k errors hs ps =
      ((download_missed_hashes oracle (k + 1) (errors + 1)
          (narrowBatch hs ps rep).1 (narrowBatch hs ps rep).2).1,
       (download_missed_hashes oracle (k + 1) (errors + 1)
          (narrowBatch hs ps rep).1 (narrowBatch hs ps rep).2).2 + 1) := by
  rw [download_missed_hashes.eq_def, dif_neg (by omega), hk]
  simp

theorem dmh_retry_same (oracle : Nat → RemoteResp) (k errors : Nat) (hs ps rep : List String)
    (msg : Option String) (h4 : errors ≤ 4)
    (hk : oracle k = .httpError (.parsed msg rep)) (hmsg : msg ≠ some "Hashes not found") :
    download_missed_hashes oracle k errors hs ps =
      ((download_missed_hashes oracle (k + 1) (errors + 1) hs ps).1,
       (download_missed_hashes oracle (k + 1) (errors + 1) hs ps).2 + 1) := by
  rw [download_missed_hashes.eq_def, dif_neg (by omega), hk]
  simp [hmsg]

/-- At most `5 - errors` remote calls remain from a state with `errors`
failed calls — at most 5 in total. -/
theorem dmh_calls_le (oracle : Nat → RemoteResp) :
    ∀ (fuel k errors : Nat) (hs ps : List String), 5 - errors ≤ fuel →
      (download_missed_hashes oracle k errors hs ps).2 ≤ 5 - errors := by
  intro fuel
  induction fuel with
  | zero =>
    intro k errors hs ps hfuel
    have h4 : errors > 4 := by omega
    rw [dmh_skip oracle k errors hs ps h4]
    simp
  | succ n ih =>
    intro k errors hs ps hfuel
    by_cases h4 : errors > 4
    · rw [dmh_skip oracle k errors hs ps h4]
      simp
    · have h4' : errors ≤ 4 := by omega
      cases hk : oracle k with
      | success => rw [dmh_success oracle k errors hs ps h4' hk]; omega
      | otherError => rw [dmh_other oracle k errors hs ps h4' hk]; omega
      | httpError body =>
        cases body with
        | unparseable => rw [dmh_badBody oracle k errors hs ps h4' hk]; omega
        | parsed msg rep =>
          by_cases hmsg : msg = some "Hashes not found"
          · subst hmsg
            rw [dmh_narrow oracle k errors hs ps rep h4' hk]
            have := ih (k + 1) (errors + 1)
              (narrowBatch hs ps rep).1 (narrowBatch hs ps rep).2 (by omega)
            simp only
            omega
          · rw [dmh_retry_same oracle k errors hs ps rep msg h4' hk hmsg]
            have := ih (k + 1) (errors + 1) hs ps (by omega)
            simp only
            omega

/-- If every entry of `l` is outside `rep`, no index matches. -/
theorem matchIdxsAux_nil (rep : List String) :
    ∀ (l : List String), (∀ h ∈ l, h ∉ rep) → ∀ i, matchIdxsAux rep i l = [] := by
  intro l
  induction l with
  | nil => intro _ i; rfl
  | cons h t ih =>
    intro hall i
    have hh : h ∉ rep := hall h (by simp)
    simp only [matchIdxsAux]
    rw [if_neg (by simpa using hh)]
    exact ih (fun x hx => hall x (by simp [hx])) (i + 1)

/-- A batch already free of the reported hashes is left unchanged. -/
theorem narrowBatch_of_disjoint (hs ps rep : List String)
    (hall : ∀ h ∈ hs, h ∉ rep) : narrowBatch hs ps rep = (hs, ps) := by
  have hm : matchIdxs hs rep = [] := matchIdxsAux_nil rep hs hall 0
  by_cases hrep : rep.length ≠ 0
  · simp [narrowBatch, hrep, hm, popMany]
  · simp [narrowBatch, hrep]

/-- From a batch already disjoint from the constantly reported hash list,
the loop keeps retrying unchanged until the error budget breaks it. -/
theorem dmh_const_narrow_from (rep hs' ps' : List String)
    (hdisj : ∀ h ∈ hs', h ∉ rep) :
    ∀ (fuel k errors : Nat), errors + fuel = 5 →
      download_missed_hashes
          (fun _ => .httpError (.parsed (some "Hashes not found") rep)) k errors hs' ps' =
        (.skipped hs' ps', fuel) := by
  intro fuel
  induction fuel with
  | zero =>
    intro k errors h5
    exact dmh_skip _ k errors hs' ps' (by omega)
  | succ n ih =>
    intro k errors h5
    rw [dmh_narrow _ k errors hs' ps' rep (by omega) rfl,
      narrowBatch_of_disjoint hs' ps' rep hdisj,
      ih (k + 1) (errors + 1) (by omega)]

/-- C3: whenever the remote store reports the structured
`"Hashes not found"` error naming a subset of the requested hashes, the
loop removes exactly the entries whose hash is in that subset from both
the hash list and the positionally paired destination list and retries
with the remainder; the loop issues at most 5 remote calls per dataset,
and when every call fails with such a narrowing response it ends in the
warning-and-skip outcome (items left absent) rather than an error. -/
theorem reconciler_narrowing :
    (∀ (hs ps rep : List String), hs.length = ps.length →
      narrowBatch hs ps rep =
        (hs.filter (fun h => !rep.contains h),
         ((hs.zip ps).filter (fun pr => !rep.contains pr.1)).map Prod.snd))
    ∧ (∀ (oracle : Nat → RemoteResp) (k errors : Nat) (hs ps rep : List String),
        errors ≤ 4 →
        oracle k = .httpError (.parsed (some "Hashes not found") rep) →
        download_missed_hashes oracle k errors hs ps =
          ((download_missed_hashes oracle (k + 1) (errors + 1)
              (narrowBatch hs ps rep).1 (narrowBatch hs ps rep).2).1,
           (download_missed_hashes oracle (k + 1) (errors + 1)
              (narrowBatch hs ps rep).1 (narrowBatch hs ps rep).2).2 + 1))
    ∧ (∀ (oracle : Nat → RemoteResp) (hs ps : List String),
        (download_missed_hashes oracle 0 0 hs ps).2 ≤ 5)
    ∧ (∀ (hs ps rep : List String), hs.length = ps.length →
        download_missed_hashes
            (fun _ => .httpError (.parsed (some "Hashes not found") rep)) 0 0 hs ps =
          (.skipped (hs.filter (fun h => !rep.contains h))
            (((hs.zip ps).filter (fun pr => !rep.contains pr.1)).map Prod.snd), 5)) := by
  refine ⟨narrowBatch_eq_filter,
    fun oracle k errors hs ps rep h4 hk => dmh_narrow oracle k errors hs ps rep h4 hk,
    fun oracle hs ps => by simpa using dmh_calls_le oracle 5 0 0 hs ps (by omega),
    ?_⟩
  intro hs ps rep hlen
  have hnb := narrowBatch_eq_filter hs ps rep hlen
  have hdisj : ∀ h ∈ hs.filter (fun h => !rep.contains h), h ∉ rep := by
    intro h hh
    have hmf := List.mem_filter.mp hh
    simpa using hmf.2
  rw [dmh_narrow _ 0 0 hs ps rep (by omega) rfl, hnb]
  rw [dmh_const_narrow_from rep _ _ hdisj 4 1 1 (by omega)]

/-- Witness for `reconciler_narrowing` on a concrete two-entry batch whose
first hash the remote store reports as missing. -/
theorem reconciler_narrowing_witness :
    narrowBatch ["h1", "h2"] ["p1", "p2"] ["h1"] = (["h2"], ["p2"]) ∧
    download_missed_hashes
        (fun _ => .httpError (.parsed (some "Hashes not found") ["h1"])) 0 0
        ["h1", "h2"] ["p1", "p2"] =
      (.skipped ["h2"] ["p2"], 5) ∧
    (download_missed_hashes (fun _ => .success) 0 0 ["h1", "h2"] ["p1", "p2"]).2 ≤ 5 := by
  have h := reconciler_narrowing
  refine ⟨?_, ?_, h.2.2.1 _ _ _⟩
  · have := h.1 ["h1", "h2"] ["p1", "p2"] ["h1"] (by decide)
    rw [this]; rfl
  · have := h.2.2.2 ["h1", "h2"] ["p1", "p2"] ["h1"] (by decide)
    rw [this]; rfl

/-- C4 counterexample: an `HTTPError` whose body parses to a message other
than `"Hashes not found"` is NOT fatal and does NOT escalate — the loop
retries the same batch five times and then skips with a warning, so the
claim that every non-narrowing remote error escalates immediately is false
on the code. -/
theorem unstructured_http_error_counterexample :
    download_missed_hashes
        (fun _ => .httpError (.parsed (some "Internal server error") [])) 0 0
        ["h1"] ["p1"] =
      (.skipped ["h1"] ["p1"], 5) := by
  have hstep : ∀ (fuel k errors : Nat), errors + fuel = 5 →
      download_missed_hashes
          (fun _ => .httpError (.parsed (some "Internal server error") [])) k errors
          ["h1"] ["p1"] =
        (.skipped ["h1"] ["p1"], fuel) := by
    intro fuel
    induction fuel with
    | zero => intro k errors h5; exact dmh_skip _ k errors _ _ (by omega)
    | succ n ih =>
      intro k errors h5
      rw [dmh_retry_same _ k errors ["h1"] ["p1"] [] (some "Internal server error")
        (by omega) rfl (by simp), ih (k + 1) (errors + 1) (by omega)]
  exact hstep 5 0 0 (by omega)

/-- C4 amended: a non-`HTTPError` exception from the remote call, or an
`HTTPError` whose body cannot be decoded as JSON, escalates immediately to
the caller (one call, no retry, no narrowing); but an `HTTPError` whose
body parses to a JSON message other than `"Hashes not found"` is retried
with the same un-narrowed batch under the shared 5-call budget instead of
escalating. -/
theorem reconciler_escalation :
    (∀ (oracle : Nat → RemoteResp) (k errors : Nat) (hs ps : List String),
      errors ≤ 4 → oracle k = .otherError →
      download_missed_hashes oracle k errors hs ps = (.escalated .unexpected hs ps, 1))
    ∧ (∀ (oracle : Nat → RemoteResp) (k errors : Nat) (hs ps : List String),
      errors ≤ 4 → oracle k = .httpError .unparseable →
      download_missed_hashes oracle k errors hs ps = (.escalated .badBody hs ps, 1))
    ∧ (∀ (oracle : Nat → RemoteResp) (k errors : Nat) (hs ps rep : List String)
        (msg : Option String),
      errors ≤ 4 → oracle k = .httpError (.parsed msg rep) →
      msg ≠ some "Hashes not found" →
      download_missed_hashes oracle k errors hs ps =
        ((download_missed_hashes oracle (k + 1) (errors + 1) hs ps).1,
         (download_missed_hashes oracle (k + 1) (errors + 1) hs ps).2 + 1)) :=
  ⟨fun oracle k errors hs ps h4 hk => dmh_other oracle k errors hs ps h4 hk,
   fun oracle k errors hs ps h4 hk => dmh_badBody oracle k errors hs ps h4 hk,
   fun oracle k errors hs ps rep msg h4 hk hmsg =>
     dmh_retry_same oracle k errors hs ps rep msg h4 hk hmsg⟩

/-- Witness for `reconciler_escalation` at concrete inputs. -/
theorem reconciler_escalation_witness :
    download_missed_hashes (fun _ => .otherError) 0 0 ["h1"] ["p1"] =
      (.escalated .unexpected ["h1"] ["p1"], 1) ∧
    download_missed_hashes (fun _ => .httpError .unparseable) 0 0 ["h1"] ["p1"] =
      (.escalated .badBody ["h1"] ["p1"], 1) ∧
    download_missed_hashes (fun _ => .httpError (.parsed none [])) 0 1 ["h1"] ["p1"] =
      ((download_missed_hashes (fun _ => .httpError (.parsed none [])) 1 2 ["h1"] ["p1"]).1,
       (download_missed_hashes (fun _ => .httpError (.parsed none [])) 1 2 ["h1"] ["p1"]).2 + 1) := by
  have h := reconciler_escalation
  exact ⟨h.1 _ 0 0 _ _ (by omega) rfl, h.2.1 _ 0 0 _ _ (by omega) rfl,
    h.2.2 _ 0 1 _ _ [] none (by omega) rfl (by simp)⟩

end Reconciler

namespace Resolver

/-! ## Filename Resolver — `create_reverse_mapping` (src/main.py lines 339-352)

Strings are modelled as `List Char`.  The repository only contains the
decoding direction (`create_reverse_mapping` turns a local blob file name
back into its logical name); the encoding direction lives in the archiving
counterpart and is modelled from the spec. -/

/-- Index of the last character satisfying `p` (CPython `str.rfind`),
`none` when there is none. -/
def findLastIdx (p : Char → Bool) : List Char → Option Nat
  | [] => none
  | c :: cs =>
    match findLastIdx p cs with
    | some k => some (k + 1)
    | none => if p c then some 0 else none

/-- CPython `posixpath.splitext`: find the last `.`; if it comes after the
last `/` and some character strictly between the last `/` and that dot is
not a dot (leading dots of the base name never start an extension), split
there, else no extension. -/
def splitext (s : List Char) : List Char × List Char :=
  match findLastIdx (fun c => c = '.') s with
  | none => (s, [])
  | some d =>
    match findLastIdx (fun c => c = '/') s with
    | none =>
      if ((s.take d).drop 0).any (fun c => c ≠ '.') then (s.take d, s.drop d)
      else (s, [])
    | some sp =>
      if sp < d then
        if ((s.take d).drop (sp + 1)).any (fun c => c ≠ '.') then (s.take d, s.drop d)
        else (s, [])
      else (s, [])

/-- Modelled from the spec: the archiving-side encoder deriving a
`LocalBlobName` from a `hash` by replacing each path separator with a dash
and keeping the original extension (the extension per `splitext` never
contains a separator, so the charwise replacement keeps it verbatim).
The encoder itself is not part of this repository. -/
def encode_hash (hash : List Char) : List Char :=
  hash.map (fun c => if c = '/' then '-' else c)

/-- The body of `create_reverse_mapping`'s loop (src/main.py lines
348-351): `base_name, ext = os.path.splitext(filename);
original_name = base_name.replace("-", "/") + ext`. -/
def decode_blob_name (filename : List Char) : List Char :=
  let be := splitext filename
  be.1.map (fun c => if c = '-' then '/' else c) ++ be.2

/-- `create_reverse_mapping` (lines 339-352): map each local file name to
its decoded logical name (as an association list in insertion order). -/
def create_reverse_mapping (filenames : List (List Char)) :
    List (List Char × List Char) :=
  filenames.map (fun f => (decode_blob_name f, f))

theorem findLastIdx_lt_length (p : Char → Bool) :
    ∀ (l : List Char) (k : Nat), findLastIdx p l = some k → k < l.length := by
  intro l
  induction l with
  | nil => intro k h; simp [findLastIdx] at h
  | cons c cs ih =>
    intro k h
    simp only [findLastIdx] at h
    cases hcs : findLastIdx p cs with
    | some m =>
      rw [hcs] at h
      cases h
      have := ih m hcs
      simp
      omega
    | none =>
      rw [hcs] at h
      by_cases hp : p c
      · rw [if_pos hp] at h
        cases h
        simp
      · rw [if_neg hp] at h
        cases h

/-- `splitext` always returns a take/drop decomposition of its input. -/
theorem splitext_eq_take_drop (s : List Char) :
    ∃ d, d ≤ s.length ∧ splitext s = (s.take d, s.drop d) := by
  unfold splitext
  split
  · exact ⟨s.length, le_refl _, by rw [List.take_length, List.drop_length]⟩
  · rename_i d hdot
    have hd : d < s.length := findLastIdx_lt_length _ s d hdot
    split
    · split
      · exact ⟨d, le_of_lt hd, rfl⟩
      · exact ⟨s.length, le_refl _, by rw [List.take_length, List.drop_length]⟩
    · split
      · split
        · exact ⟨d, le_of_lt hd, rfl⟩
        · exact ⟨s.length, le_refl _, by rw [List.take_length, List.drop_length]⟩
      · exact ⟨s.length, le_refl _, by rw [List.take_length, List.drop_length]⟩

theorem decode_encode_piecewise_base (l : List Char) (h : '-' ∉ l) :
    (l.map (fun c => if c = '/' then '-' else c)).map
      (fun c => if c = '-' then '/' else c) = l := by
  induction l with
  | nil => rfl
  | cons c cs ih =>
    have hc : c ≠ '-' := fun hcc => h (hcc ▸ List.mem_cons_self c cs)
    have hcs : '-' ∉ cs := fun hm => h (List.mem_cons_of_mem c hm)
    by_cases hsl : c = '/'
    · simp [hsl, ih hcs]
    · simp [hsl, hc, ih hcs]

theorem encode_fixes_sep_free (l : List Char) (h : '/' ∉ l) :
    l.map (fun c => if c = '/' then '-' else c) = l := by
  induction l with
  | nil => rfl
  | cons c cs ih =>
    have hc : c ≠ '/' := fun hcc => h (hcc ▸ List.mem_cons_self c cs)
    have hcs : '/' ∉ cs := fun hm => h (List.mem_cons_of_mem c hm)
    simp [hc, ih hcs]

/-- C8 counterexample: the key `"a.b/c"` contains no dash at all, yet
decoding its encoding yields `"a.b-c"`, not the original key — the
separator-derived dash lands inside what `splitext` takes as the encoded
name's extension, where decoding never substitutes it back. -/
theorem resolver_counterexample :
    ('-' ∉ ("a.b/c").data) ∧
    decode_blob_name (encode_hash ("a.b/c").data) = ("a.b-c").data ∧
    ("a.b-c").data ≠ ("a.b/c").data := by
  refine ⟨by decide, by decide, by decide⟩

/-- C8 amended: decoding inverts encoding for every key with no dash
before the split position of its encoded name and no path separator at or
after it (equivalently: dashes may only appear inside the extension and
separators only before it). -/
theorem resolver_round_trip (key : List Char)
    (hdash : '-' ∉ key.take (splitext (encode_hash key)).1.length)
    (hsep : '/' ∉ key.drop (splitext (encode_hash key)).1.length) :
    decode_blob_name (encode_hash key) = key := by
  obtain ⟨d, hdle, hsp⟩ := splitext_eq_take_drop (encode_hash key)
  have hlen : (encode_hash key).length = key.length := List.length_map _ _
  have hn : (splitext (encode_hash key)).1.length = d := by
    rw [hsp]
    simp only [List.length_take]
    omega
  rw [hn] at hdash hsep
  have htake : (encode_hash key).take d = (key.take d).map
      (fun c => if c = '/' then '-' else c) := by
    simp [encode_hash, List.map_take]
  have hdrop : (encode_hash key).drop d = (key.drop d).map
      (fun c => if c = '/' then '-' else c) := by
    simp [encode_hash, List.map_drop]
  calc decode_blob_name (encode_hash key)
      = ((encode_hash key).take d).map (fun c => if c = '-' then '/' else c) ++
          (encode_hash key).drop d := by
        simp only [decode_blob_name, hsp]
    _ = key.take d ++ key.drop d := by
        rw [htake, hdrop, decode_encode_piecewise_base _ hdash,
          encode_fixes_sep_free _ hsep]
    _ = key := List.take_append_drop d key

/-- Witness for `resolver_round_trip`: the key `"ab/c.png"` round-trips. -/
theorem resolver_round_trip_witness :
    decode_blob_name (encode_hash ("ab/c.png").data) = ("ab/c.png").data :=
  resolver_round_trip ("ab/c.png").data (by decide) (by decide)

end Resolver

namespace Orchestrator

/-! ## Legacy-format restore — `main` lines 670-678 and
`move_files_to_project_dir` (src/main.py lines 452-468)

For an images project whose backup has no annotations archive, `main`
iterates over the dataset subfolders of the extracted pool
(`get_subdirs(g.temp_files_path)`), raises `FileNotFoundError` naming the
first dataset whose `ann` directory is empty (or missing), and otherwise
moves every item of the pool into the project directory. -/

/-- A dataset subfolder of the extracted pool: its name and its `ann`
directory, which may be missing (`none`) or present with a list of
annotation files. -/
structure DatasetDir where
  name : String
  annFiles : Option (List String)
deriving DecidableEq, Repr

/-- The error raised by the legacy branch. -/
inductive RestoreError
  | fileNotFound (msg : String)
deriving DecidableEq, Repr

/-- Modelled from the spec: `supervisely.io.fs.dir_empty` (imported at
src/main.py line 16, not part of this repository) holds when the directory
has no files — per the spec's legacy-format requirement, a dataset lacking
a non-empty annotation directory (empty or missing) fails the check. -/
def dir_empty : Option (List String) → Bool
  | none => true
  | some files => files.isEmpty

/-- The message of the `FileNotFoundError` raised at lines 675-677. -/
def legacyErrorMsg (ds : String) : String :=
  "No annotation files were found in dataset '" ++ ds ++
    "' when trying to restore images project with an old archive format"

/-- The `for ds_dir in ds_dirs` validation loop (lines 672-677): raise on
the first dataset whose `ann` directory is empty. -/
def checkLegacyDatasets : List DatasetDir → Except RestoreError Unit
  | [] => .ok ()
  | ds :: rest =>
    if dir_empty ds.annFiles then .error (.fileNotFound (legacyErrorMsg ds.name))
    else checkLegacyDatasets rest

/-- `move_files_to_project_dir` (lines 452-468): every item of the pool is
moved into the project directory (directories and plain files alike), then
the emptied pool directory is removed. -/
def move_files_to_project_dir (pool proj : List DatasetDir) : List DatasetDir :=
  proj ++ pool

/-- The legacy branch of `main` (lines 670-678): validate every dataset of
the pool, then move the whole pool into the project directory verbatim. -/
def legacyRestore (pool proj : List DatasetDir) :
    Except RestoreError (List DatasetDir) :=
  match checkLegacyDatasets pool with
  | .error e => .error e
  | .ok () => .ok (move_files_to_project_dir pool proj)

/-- C9: when every dataset subfolder has a non-empty annotation directory
the whole pool is moved into the destination tree verbatim; when some
dataset's annotation directory is empty or missing, the branch raises a
FileNotFound error whose message names an offending dataset. -/
theorem legacy_restore_validation :
    (∀ (pool proj : List DatasetDir),
      (∀ ds ∈ pool, dir_empty ds.annFiles = false) →
      legacyRestore pool proj = .ok (proj ++ pool))
    ∧ (∀ (pool proj : List DatasetDir) (ds : DatasetDir),
      ds ∈ pool → dir_empty ds.annFiles = true →
      ∃ offending ∈ pool, dir_empty offending.annFiles = true ∧
        legacyRestore pool proj = .error (.fileNotFound (legacyErrorMsg offending.name))) := by
  constructor
  · intro pool proj hall
    have hcheck : checkLegacyDatasets pool = .ok () := by
      induction pool with
      | nil => rfl
      | cons d rest ih =>
        have hd : dir_empty d.annFiles = false := hall d (by simp)
        simp only [checkLegacyDatasets, hd]
        exact ih (fun x hx => hall x (by simp [hx]))
    simp [legacyRestore, hcheck, move_files_to_project_dir]
  · intro pool proj ds hmem hempty
    induction pool with
    | nil => simp at hmem
    | cons d rest ih =>
      by_cases hd : dir_empty d.annFiles = true
      · refine ⟨d, by simp, hd, ?_⟩
        simp [legacyRestore, checkLegacyDatasets, hd]
      · have hdm : ds ∈ rest := by
          rcases List.mem_cons.mp hmem with rfl | h
          · exact absurd hempty hd
          · exact h
        obtain ⟨off, hoff, hoffe, hres⟩ := ih hdm
        refine ⟨off, by simp [hoff], hoffe, ?_⟩
        have hdf : dir_empty d.annFiles = false := by
          cases hdb : dir_empty d.annFiles
          · rfl
          · exact absurd hdb hd
        cases hc : checkLegacyDatasets rest with
        | error e =>
          simp only [legacyRestore, hc] at hres
          cases hres
          simp [legacyRestore, checkLegacyDatasets, hdf, hc]
        | ok u =>
          cases u
          simp [legacyRestore, hc] at hres

/-- Witness for `legacy_restore_validation` at concrete pools. -/
theorem legacy_restore_validation_witness :
    legacyRestore [⟨"ds1", some ["a.json"]⟩] [] = .ok [⟨"ds1", some ["a.json"]⟩] ∧
    ∃ offending ∈ [(⟨"ds1", some ["a.json"]⟩ : DatasetDir), ⟨"ds2", some []⟩],
      dir_empty offending.annFiles = true ∧
      legacyRestore [⟨"ds1", some ["a.json"]⟩, ⟨"ds2", some []⟩] [] =
        .error (.fileNotFound (legacyErrorMsg offending.name)) := by
  have h := legacy_restore_validation
  refine ⟨?_, h.2 [⟨"ds1", some ["a.json"]⟩, ⟨"ds2", some []⟩] []
    ⟨"ds2", some []⟩ (by simp) (by decide)⟩
  have := h.1 [⟨"ds1", some ["a.json"]⟩] [] (by decide)
  simpa using this

end Orchestrator

namespace Reassembler

/-! ## Archive Reassembler — `is_tar_part`, `get_tar_parts`,
`combine_parts` (src/main.py lines 169-214) and the reassembly step of
`unzip_archive` (lines 316-319)

Byte contents are `List Nat`; a directory is an association list from file
name to content (`os.listdir` order), with every entry a plain file.  The
file operations of `combine_parts` address files by their joined path, so
the file-system view keyed by full path is derived from the listing. -/

/-- Byte string. -/
abbrev ByteSeq := List Nat

/-- A directory: file name (or full path) paired with file content. -/
abbrev Dir := List (String × ByteSeq)

/-- `\d` of the regex: an ASCII digit. -/
def isDigit (c : Char) : Bool := decide ('0' ≤ c) && decide (c ≤ '9')

/-- Drop one trailing newline if present (the input is the reversed
character list, so its head is the last character). -/
def stripTrailingNewline : List Char → List Char
  | [] => []
  | c :: rest => if c = '\n' then rest else c :: rest

/-- `is_tar_part` (src/main.py lines 169-178):
`re.match(r".+\.(tar\.\d{3})$", filename)`.  The regex is anchored at the
start by `re.match` and at the end by `$` (which also matches just before
one trailing newline); `.` never matches a newline.  So the name matches
iff, after dropping one optional trailing newline, it is
`<base>.tar.<3 digits>` with `<base>` non-empty and newline-free. -/
def is_tar_part (filename : String) : Bool :=
  match stripTrailingNewline filename.data.reverse with
  | d3 :: d2 :: d1 :: p1 :: p2 :: p3 :: p4 :: p5 :: rest =>
    isDigit d3 && isDigit d2 && isDigit d1 &&
      (p1 = '.' && p2 = 'r' && p3 = 'a' && p4 = 't' && p5 = '.') &&
      !rest.isEmpty && rest.all (fun c => c ≠ '\n')
  | _ => false

/-- `os.path.join(directory, filename)` for a non-empty directory path
without a trailing separator — the shape the callers pass. -/
def pathJoin (d name : String) : String := d ++ "/" ++ name

/-- The file-system view of a directory listing: each name joined with the
directory path. -/
def fsOfListing (directory : String) (listing : Dir) : Dir :=
  listing.map (fun e => (pathJoin directory e.1, e.2))

/-- `get_tar_parts` (lines 181-194): the full paths of the listed files
whose name matches the split-part pattern, in listing order. -/
def get_tar_parts (directory : String) (listing : Dir) : List String :=
  listing.filterMap
    (fun e => if is_tar_part e.1 then some (pathJoin directory e.1) else none)

/-- `open(part_path, "rb").read()`. -/
def readFile (fs : Dir) (p : String) : ByteSeq :=
  match fs.find? (fun e => e.1 = p) with
  | some e => e.2
  | none => []

/-- `os.remove(part_path)`. -/
def removeFile (fs : Dir) (p : String) : Dir :=
  fs.filter (fun e => e.1 ≠ p)

/-- `combine_parts` (lines 197-214): sort the part paths
(`sorted(parts_paths)`), then concatenate each part's bytes into
`combined_parts.tar` inside `output_path`, deleting each part right after
reading it.  Returns the combined path, its content, and the resulting
file system. -/
def combine_parts (output_dir : String) (parts_paths : List String) (fs : Dir) :
    String × ByteSeq × Dir :=
  let sorted_paths := parts_paths.insertionSort (· ≤ ·)
  let output_path := pathJoin output_dir "combined_parts.tar"
  let res := sorted_paths.foldl
    (fun (st : ByteSeq × Dir) p => (st.1 ++ readFile st.2 p, removeFile st.2 p)) ([], fs)
  (output_path, res.1, res.2 ++ [(output_path, res.1)])

/-- The reassembly step of `unzip_archive` (lines 316-319): scan the
directory; if no split parts are found this is a no-op (`if tar_parts:`),
otherwise combine them.  The later extraction of the combined archive and
its removal (lines 320-321) belong to the Extractor. -/
def reassemble (directory : String) (listing : Dir) : Option ByteSeq × Dir :=
  let fs := fsOfListing directory listing
  let tar_parts := get_tar_parts directory listing
  if tar_parts.isEmpty then (none, fs)
  else
    let res := combine_parts directory tar_parts fs
    (some res.2.1, res.2.2)

/-- The fixed-width numeric suffix: three zero-padded decimal digits. -/
def digitChar : Nat → Char
  | 0 => '0'
  | 1 => '1'
  | 2 => '2'
  | 3 => '3'
  | 4 => '4'
  | 5 => '5'
  | 6 => '6'
  | 7 => '7'
  | 8 => '8'
  | _ => '9'

/-- `NNN`: the 3-digit zero-padded decimal rendering of `n < 1000`. -/
def pad3 (n : Nat) : String :=
  ⟨[digitChar (n / 100), digitChar (n / 10 % 10), digitChar (n % 10)]⟩

/-- The name of the `k`-th split part of archive `<base>.tar`. -/
def partName (base : String) (k : Nat) : String :=
  base ++ ".tar." ++ pad3 k

theorem digitChar_lt_iff :
    ∀ a, a < 10 → ∀ b, b < 10 → (digitChar a < digitChar b ↔ a < b) := by decide

theorem digitChar_isDigit : ∀ a, a < 10 → isDigit (digitChar a) = true := by decide

theorem digitChar_ne_newline : ∀ a, a < 10 → digitChar a ≠ '\n' := by decide

/-- A well-formed part name matches the split-part pattern. -/
theorem is_tar_part_partName (base : String) (k : Nat)
    (hbase : base.data ≠ []) (hnl : '\n' ∉ base.data) (hk : k < 1000) :
    is_tar_part (partName base k) = true := by
  have h2 : k / 100 < 10 := by omega
  have h1 : k / 10 % 10 < 10 := by omega
  have h0 : k % 10 < 10 := by omega
  have hdata : (partName base k).data =
      base.data ++ ['.', 't', 'a', 'r', '.',
        digitChar (k / 100), digitChar (k / 10 % 10), digitChar (k % 10)] := by
    have hraw : (partName base k).data =
        (base.data ++ (".tar." : String).data) ++ (pad3 k).data := rfl
    have hdot : (".tar." : String).data = ['.', 't', 'a', 'r', '.'] := by decide
    rw [hraw, hdot, List.append_assoc]
    rfl
  have hrev : (partName base k).data.reverse =
      digitChar (k % 10) :: digitChar (k / 10 % 10) :: digitChar (k / 100) ::
        '.' :: 'r' :: 'a' :: 't' :: '.' :: base.data.reverse := by
    rw [hdata, List.reverse_append]
    rfl
  have hstrip : stripTrailingNewline (partName base k).data.reverse =
      digitChar (k % 10) :: digitChar (k / 10 % 10) :: digitChar (k / 100) ::
        '.' :: 'r' :: 'a' :: 't' :: '.' :: base.data.reverse := by
    rw [hrev]
    show (if digitChar (k % 10) = '\n' then _ else _) = _
    rw [if_neg (digitChar_ne_newline _ h0)]
  show (match stripTrailingNewline (partName base k).data.reverse with
    | d3 :: d2 :: d1 :: p1 :: p2 :: p3 :: p4 :: p5 :: rest =>
      isDigit d3 && isDigit d2 && isDigit d1 &&
        (p1 = '.' && p2 = 'r' && p3 = 'a' && p4 = 't' && p5 = '.') &&
        !rest.isEmpty && rest.all (fun c => c ≠ '\n')
    | _ => false) = true
  rw [hstrip]
  have hne : (base.data.reverse.isEmpty) = false := by
    cases hb : base.data.reverse with
    | nil => exact absurd (List.reverse_eq_nil_iff.mp hb) hbase
    | cons x xs => rfl
  have hall : base.data.reverse.all (fun c => c ≠ '\n') = true := by
    refine List.all_eq_true.mpr ?_
    intro c hc
    have : c ∈ base.data := List.mem_reverse.mp hc
    simp only [decide_eq_true_eq]
    exact fun hcc => hnl (hcc ▸ this)
  simp [digitChar_isDigit _ h0, digitChar_isDigit _ h1, digitChar_isDigit _ h2,
    hne, hall]
  intro x hx
  exact fun hcc => hnl (hcc ▸ hx)

/-- Lexicographic comparison ignores a common prefix. -/
theorem lex_append_left_iff (p : List Char) (x y : List Char) :
    List.Lex (· < ·) (p ++ x) (p ++ y) ↔ List.Lex (· < ·) x y := by
  induction p with
  | nil => exact Iff.rfl
  | cons c cs ih => exact List.Lex.cons_iff.trans ih

/-- String comparison ignores a common prefix. -/
theorem str_append_lt_iff (p a b : String) : p ++ a < p ++ b ↔ a < b := by
  rw [String.lt_iff_toList_lt, String.lt_iff_toList_lt]
  show List.Lex (· < ·) (p.toList ++ a.toList) (p.toList ++ b.toList) ↔
    List.Lex (· < ·) a.toList b.toList
  exact lex_append_left_iff p.toList a.toList b.toList

/-- The fixed-width zero-padded suffix orders lexically as numerically. -/
theorem pad3_lt (i j : Nat) (hj : j < 1000) (hij : i < j) : pad3 i < pad3 j := by
  rw [String.lt_iff_toList_lt]
  show List.Lex (· < ·)
    [digitChar (i / 100), digitChar (i / 10 % 10), digitChar (i % 10)]
    [digitChar (j / 100), digitChar (j / 10 % 10), digitChar (j % 10)]
  by_cases h2 : i / 100 < j / 100
  · exact List.Lex.rel ((digitChar_lt_iff _ (by omega) _ (by omega)).mpr h2)
  · have e2 : i / 100 = j / 100 := by omega
    rw [e2]
    by_cases h1c : i / 10 % 10 < j / 10 % 10
    · exact List.Lex.cons (List.Lex.rel ((digitChar_lt_iff _ (by omega) _ (by omega)).mpr h1c))
    · have e1 : i / 10 % 10 = j / 10 % 10 := by omega
      rw [e1]
      have h0c : i % 10 < j % 10 := by omega
      exact List.Lex.cons (List.Lex.cons
        (List.Lex.rel ((digitChar_lt_iff _ (by omega) _ (by omega)).mpr h0c)))

/-- Part names with a common base order as their indices. -/
theorem partName_lt (base : String) (i j : Nat) (hj : j < 1000) (hij : i < j) :
    partName base i < partName base j :=
  (str_append_lt_iff (base ++ ".tar.") (pad3 i) (pad3 j)).mpr (pad3_lt i j hj hij)

/-- Joined part paths with a common base order as their indices. -/
theorem pathJoin_partName_lt (directory base : String) (i j : Nat)
    (hj : j < 1000) (hij : i < j) :
    pathJoin directory (partName base i) < pathJoin directory (partName base j) := by
  have h := partName_lt base i j hj hij
  have h2 := (str_append_lt_iff (directory ++ "/") (partName base i) (partName base j)).mpr h
  exact h2

/-- The canonical full-path list of the `N` parts is strictly sorted. -/
theorem parts_paths_pairwise_lt (directory base : String) (N : Nat) (hN : N ≤ 1000) :
    ((List.range N).map (fun k => pathJoin directory (partName base k))).Pairwise (· < ·) := by
  refine List.pairwise_map.mpr ?_
  refine (List.pairwise_lt_range N).imp_of_mem ?_
  intro i j hi hj hij
  exact pathJoin_partName_lt directory base i j
    (lt_of_lt_of_le (List.mem_range.mp hj) hN) hij

/-- The canonical name list of the `N` parts is strictly sorted. -/
theorem parts_names_pairwise_lt (base : String) (N : Nat) (hN : N ≤ 1000) :
    ((List.range N).map (fun k => partName base k)).Pairwise (· < ·) := by
  refine List.pairwise_map.mpr ?_
  refine (List.pairwise_lt_range N).imp_of_mem ?_
  intro i j hi hj hij
  exact partName_lt base i j (lt_of_lt_of_le (List.mem_range.mp hj) hN) hij

/-- Removing one file leaves the others readable. -/
theorem readFile_removeFile_ne (fs : Dir) (p q : String) (h : q ≠ p) :
    readFile (removeFile fs p) q = readFile fs q := by
  induction fs with
  | nil => rfl
  | cons e t ih =>
    by_cases hep : e.1 = p
    · have hq : ¬ (e.1 = q) := fun hh => h (by rw [← hh, hep])
      have h1 : removeFile (e :: t) p = removeFile t p := by
        simp only [removeFile]
        rw [List.filter_cons_of_neg]
        simp [hep]
      rw [h1, ih]
      simp only [readFile]
      rw [List.find?_cons_of_neg]
      simp [hq]
    · have h1 : removeFile (e :: t) p = e :: removeFile t p := by
        simp only [removeFile]
        rw [List.filter_cons_of_pos]
        simp [hep]
      rw [h1]
      by_cases heq : e.1 = q
      · simp only [readFile]
        rw [List.find?_cons_of_pos _ (by simpa using heq),
          List.find?_cons_of_pos _ (by simpa using heq)]
      · simp only [readFile]
        rw [List.find?_cons_of_neg _ (by simpa using heq),
          List.find?_cons_of_neg _ (by simpa using heq)]
        exact ih

/-- On a directory with distinct file names, reading a present file
returns its content. -/
theorem readFile_of_mem_nodup (fs : Dir) (key : String) (v : ByteSeq)
    (hnodup : (fs.map Prod.fst).Nodup) (hmem : (key, v) ∈ fs) :
    readFile fs key = v := by
  induction fs with
  | nil => simp at hmem
  | cons e t ih =>
    rcases List.mem_cons.mp hmem with rfl | hmt
    · simp only [readFile]
      rw [List.find?_cons_of_pos _ (by simp)]
    · by_cases hek : e.1 = key
      · exfalso
        have hk : key ∈ t.map Prod.fst := by
          exact List.mem_map.mpr ⟨(key, v), hmt, rfl⟩
        have := (List.nodup_cons.mp hnodup).1
        exact this (hek ▸ hk)
      · simp only [readFile]
        rw [List.find?_cons_of_neg _ (by simpa using hek)]
        exact ih (List.nodup_cons.mp hnodup).2 hmt

/-- The read-append-delete fold of `combine_parts`, characterised: it
concatenates the parts' contents in path order and removes every part. -/
theorem combine_fold (content : String → ByteSeq) :
    ∀ (paths : List String) (fs : Dir) (acc : ByteSeq),
      paths.Nodup →
      (∀ p ∈ paths, readFile fs p = content p) →
      paths.foldl
          (fun (st : ByteSeq × Dir) p => (st.1 ++ readFile st.2 p, removeFile st.2 p))
          (acc, fs)
        = (acc ++ (paths.map content).flatten,
           paths.foldl (fun f p => removeFile f p) fs) := by
  intro paths
  induction paths with
  | nil => intro fs acc _ _; simp
  | cons p t ih =>
    intro fs acc hnodup hread
    have hp : readFile fs p = content p := hread p (by simp)
    have hpt : p ∉ t := (List.nodup_cons.mp hnodup).1
    simp only [List.foldl_cons, hp]
    rw [ih (removeFile fs p) (acc ++ content p) (List.nodup_cons.mp hnodup).2 ?hrest]
    · simp [List.append_assoc]
    case hrest =>
      intro q hq
      rw [readFile_removeFile_ne fs p q (fun hqp => hpt (hqp ▸ hq))]
      exact hread q (by simp [hq])

/-- Removing every listed path empties a directory whose files all bear
listed paths. -/
theorem removeAll_of_subset :
    ∀ (paths : List String) (fs : Dir),
      (∀ e ∈ fs, e.1 ∈ paths) →
      paths.foldl (fun f p => removeFile f p) fs = [] := by
  intro paths
  induction paths with
  | nil =>
    intro fs hsub
    cases hfs : fs with
    | nil => rfl
    | cons e t => exact absurd (hsub e (by simp [hfs])) (by simp)
  | cons p t ih =>
    intro fs hsub
    simp only [List.foldl_cons]
    refine ih (removeFile fs p) ?_
    intro e he
    have hm := List.mem_filter.mp he
    have h1 := hsub e hm.1
    have h2 : ¬ (e.1 = p) := by simpa using hm.2
    rcases List.mem_cons.mp h1 with hh | hh
    · exact absurd hh h2
    · exact hh

/-- A `filterMap` that never drops is a `map`. -/
theorem filterMap_eq_map_of_all_some {α β : Type} (G : α → Option β) (H : α → β) :
    ∀ l : List α, (∀ x ∈ l, G x = some (H x)) → l.filterMap G = l.map H := by
  intro l
  induction l with
  | nil => intro _; rfl
  | cons x t ih =>
    intro hall
    simp only [List.filterMap_cons, hall x (by simp), List.map_cons]
    rw [ih (fun y hy => hall y (by simp [hy]))]

/-- C7: for a directory containing exactly the `N` split parts of an
archive `<base>.tar` — named with the 3-digit zero-padded suffixes
`000 … (N-1)`, listed in any order — the Reassembler concatenates their
byte contents in lexical (equivalently numeric) order into one combined
archive byte-for-byte equal to the original (the concatenation of the
parts in index order), deleting every part, so the directory afterwards
holds exactly the combined archive; and on a directory with no file
matching the split-part pattern it is a no-op returning none. -/
theorem reassembler_round_trip :
    (∀ (directory base : String) (N : Nat) (ps : Nat → ByteSeq) (listing : Dir),
      base.data ≠ [] → '\n' ∉ base.data → 0 < N → N ≤ 1000 →
      listing.Perm ((List.range N).map (fun k => (partName base k, ps k))) →
      reassemble directory listing =
        (some ((List.range N).map ps).flatten,
         [(pathJoin directory "combined_parts.tar", ((List.range N).map ps).flatten)]))
    ∧ (∀ (directory : String) (listing : Dir),
      (∀ e ∈ listing, is_tar_part e.1 = false) →
      reassemble directory listing = (none, fsOfListing directory listing)) := by
  constructor
  · intro directory base N ps listing hbase hnl hpos hN hperm
    have hS : ((List.range N).map (fun k => pathJoin directory (partName base k))).Pairwise
        (· < ·) := parts_paths_pairwise_lt directory base N hN
    have hSnodup : ((List.range N).map (fun k => pathJoin directory (partName base k))).Nodup :=
      hS.imp ne_of_lt
    have hSsorted : ((List.range N).map (fun k => pathJoin directory (partName base k))).Sorted
        (· ≤ ·) := hS.imp le_of_lt
    have hcanonfm : ((List.range N).map (fun k => (partName base k, ps k))).filterMap
          (fun e => if is_tar_part e.1 then some (pathJoin directory e.1) else none)
        = (List.range N).map (fun k => pathJoin directory (partName base k)) := by
      rw [filterMap_eq_map_of_all_some _ (fun e => pathJoin directory e.1) _ ?hsome]
      · rw [List.map_map]
        rfl
      case hsome =>
        intro e he
        obtain ⟨k, hk, rfl⟩ := List.mem_map.mp he
        rw [if_pos (is_tar_part_partName base k hbase hnl
          (lt_of_lt_of_le (List.mem_range.mp hk) hN))]
    have hparts : (get_tar_parts directory listing).Perm
        ((List.range N).map (fun k => pathJoin directory (partName base k))) := by
      have h := hperm.filterMap
        (fun e => if is_tar_part e.1 then some (pathJoin directory e.1) else none)
      rw [hcanonfm] at h
      exact h
    have hsort : (get_tar_parts directory listing).insertionSort (· ≤ ·)
        = (List.range N).map (fun k => pathJoin directory (partName base k)) :=
      List.eq_of_perm_of_sorted ((List.perm_insertionSort _ _).trans hparts)
        (List.sorted_insertionSort _ _) hSsorted
    have hkeys : ((fsOfListing directory listing).map Prod.fst).Perm
        ((List.range N).map (fun k => pathJoin directory (partName base k))) := by
      have h := hperm.map (fun e => pathJoin directory e.1)
      rw [List.map_map] at h
      show ((listing.map (fun e => (pathJoin directory e.1, e.2))).map Prod.fst).Perm _
      rw [List.map_map]
      exact h
    have hkeysnodup : ((fsOfListing directory listing).map Prod.fst).Nodup :=
      hkeys.symm.nodup hSnodup
    have hread : ∀ k ∈ List.range N,
        readFile (fsOfListing directory listing) (pathJoin directory (partName base k))
          = ps k := by
      intro k hk
      refine readFile_of_mem_nodup _ _ _ hkeysnodup ?_
      have hm : (partName base k, ps k) ∈ listing := by
        refine hperm.mem_iff.mpr ?_
        exact List.mem_map.mpr ⟨k, hk, rfl⟩
      exact List.mem_map.mpr ⟨(partName base k, ps k), hm, rfl⟩
    have hsub : ∀ e ∈ fsOfListing directory listing,
        e.1 ∈ (List.range N).map (fun k => pathJoin directory (partName base k)) := by
      intro e he
      refine hkeys.mem_iff.mp ?_
      exact List.mem_map.mpr ⟨e, he, rfl⟩
    have hcombine : combine_parts directory (get_tar_parts directory listing)
          (fsOfListing directory listing)
        = (pathJoin directory "combined_parts.tar",
           ((List.range N).map ps).flatten,
           [(pathJoin directory "combined_parts.tar", ((List.range N).map ps).flatten)]) := by
      simp only [combine_parts, hsort]
      rw [combine_fold (readFile (fsOfListing directory listing)) _ _ _ hSnodup
        (fun p _ => rfl)]
      rw [removeAll_of_subset _ _ hsub]
      have hmap : ((List.range N).map (fun k => pathJoin directory (partName base k))).map
          (readFile (fsOfListing directory listing)) = (List.range N).map ps := by
        rw [List.map_map]
        exact List.map_congr_left hread
      rw [hmap]
      simp
    have hne : (get_tar_parts directory listing).isEmpty = false := by
      cases hgl : get_tar_parts directory listing with
      | nil =>
        exfalso
        rw [hgl] at hparts
        have hSnil := hparts.symm.eq_nil
        have hrN : List.range N = [] := by
          cases hr : List.range N with
          | nil => rfl
          | cons a t => rw [hr] at hSnil; simp at hSnil
        have : N = 0 := by
          by_contra hzero
          have : 0 ∈ List.range N := List.mem_range.mpr (by omega)
          rw [hrN] at this
          simp at this
        omega
      | cons a t => rfl
    simp only [reassemble, hne]
    rw [hcombine]
    simp
  · intro directory listing hnone
    have hempty : get_tar_parts directory listing = [] := by
      refine List.filterMap_eq_nil_iff.mpr ?_
      intro e he
      simp [hnone e he]
    simp [reassemble, hempty]

/-- Witness for `reassembler_round_trip`: two parts listed out of order
reassemble byte-for-byte, and a directory without parts is untouched. -/
theorem reassembler_round_trip_witness :
    reassemble "pool" [("x.tar.001", [1]), ("x.tar.000", [0])] =
      (some [0, 1], [("pool/combined_parts.tar", [0, 1])]) ∧
    reassemble "pool" [("notes.txt", [5])] =
      (none, [("pool/notes.txt", [5])]) := by
  constructor
  · have h := reassembler_round_trip.1 "pool" "x" 2 (fun k => [k])
      [("x.tar.001", [1]), ("x.tar.000", [0])]
      (by decide) (by decide) (by decide) (by decide) (by decide)
    rw [h]
    rfl
  · have h := reassembler_round_trip.2 "pool" [("notes.txt", [5])] (by decide)
    rw [h]
    rfl

end Reassembler
